import Mathlib

/-!
Shallow embedding of the plot tool of go-benchmark-kvstore (file `plot.go`,
given as `src/unnamed/part_000`), together with proofs about the claims of
its specification.

Modelling conventions, used throughout:

* Go `float64` metric values (`rate`, `mean`, `min`, `max`) are modelled as
  `Rat`.  Every operation of the program treats them opaquely (they are
  appended to slices and truncated, never compared or added), so nothing
  depends on floating-point semantics.
* Go `time.Time` values are modelled as `Int` (nanoseconds), matching
  `time.Duration` arithmetic; `timestamp.Sub(start)` becomes subtraction.
  A `logEntry`'s `timestamp` JSON field is `Option Int`: `none` models the
  absent/empty field, `some t` a field that parses to time `t`.  A record
  whose timestamp string fails to parse makes `processFile` fail before any
  state of interest is built, so such records are outside the embedded
  input type (they belong to the decode-error class together with malformed
  JSON).  Go's `start.IsZero()` sentinel is modelled as `start = none`.
* Go maps (`map[string][][]float64`, `map[plotConfig][]*plotMeasurements`)
  are modelled as association lists built in insertion order; `m[k] =
  append(m[k], v)` becomes `alistAppend`.  No claim depends on Go's map
  iteration order: the only map-wide operation is a minimum, which is
  order-insensitive, and chart order inside the page is not claimed.
-/

/-- One decoded JSON log record, mirroring the Go struct `logEntry`.
Fields absent from a record carry Go zero values, exactly as
`json.Decoder.Decode` leaves them. -/
structure logEntry where
  Level : String := ""
  Message : String := ""
  Time : String := ""
  Engine : String := ""
  Writers : Int := 0
  Readers : Int := 0
  Size : Int := 0
  Vary : Bool := false
  Timestamp : Option Int := none
  Max : Rat := 0
  Mean : Rat := 0
  Min : Rat := 0
  Count : Int := 0
  Rate : Rat := 0
deriving DecidableEq

/-- The grouping key, mirroring the Go struct `plotConfig`. -/
structure plotConfig where
  Writers : Int
  Readers : Int
  Size : Int
  Vary : Bool
deriving DecidableEq

/-- One run's accumulated measurements, mirroring the Go struct
`plotMeasurements`.  `Data` is the Go map `map[string][][]float64` as an
association list in insertion order. -/
structure plotMeasurements where
  Engine : String
  Config : plotConfig
  Timestamps : List Int
  Data : List (String × List (List Rat))
deriving DecidableEq

/-- Association-list lookup modelling a Go map read `m[k]` (with the zero
value `[]` for a missing key, as Go returns a nil slice).  Used for both
`map[string][][]float64` and `map[plotConfig][]*plotMeasurements`. -/
def alistGet [DecidableEq κ] (g : List (κ × List α)) (k : κ) : List α :=
  match g.find? (fun kv => kv.1 = k) with
  | some kv => kv.2
  | none => []

/-- Association-list update modelling the Go statement `m[k] = append(m[k], v)`. -/
def alistAppend [DecidableEq κ] (g : List (κ × List α)) (k : κ) (v : α) :
    List (κ × List α) :=
  if g.any (fun kv => kv.1 = k) then
    g.map (fun kv => if kv.1 = k then (kv.1, kv.2 ++ [v]) else kv)
  else
    g ++ [(k, [v])]

/-- Group-map update modelling the Go statement
`data[measurements.Config] = append(data[measurements.Config], measurements)`. -/
def addToGroup (g : List (plotConfig × List plotMeasurements))
    (m : plotMeasurements) : List (plotConfig × List plotMeasurements) :=
  alistAppend g m.Config m

/-- Errors of the accumulation phase.  Decode failures (malformed JSON or a
malformed timestamp string) abort before reaching any state this
development reasons about and are absorbed into the input type, see the
header comment. -/
inductive PError where
  | missingMarker
  | duplicateMarker
deriving DecidableEq

/-- The loop state of `processFile`: the measurements under construction
plus the `start` baseline (`none` models Go's zero `time.Time`). -/
structure procState where
  m : plotMeasurements
  start : Option Int
deriving DecidableEq

/-- Timestamp handling of one loop iteration of `processFile` (the
`if entry.Timestamp != ""` block).  On the first timestamped record the
baseline is set and offset `0` appended; later records append
`timestamp - start` unless it equals the last recorded offset.  In Go the
comparison indexes `Timestamps[len-1]`, which is always in range because
`Timestamps` is nonempty whenever `start` is set; `getLast?` agrees with it
on all reachable states. -/
def stepTs (s : procState) (e : logEntry) : procState :=
  match e.Timestamp with
  | none => s
  | some timestamp =>
    match s.start with
    | none =>
      { s with start := some timestamp,
               m := { s.m with Timestamps := s.m.Timestamps ++ [0] } }
    | some start =>
      let sinceStart := timestamp - start
      if s.m.Timestamps.getLast? ≠ some sinceStart then
        { s with m := { s.m with Timestamps := s.m.Timestamps ++ [sinceStart] } }
      else
        s

/-- The configuration carried by a marker record, as `processFile` copies it. -/
def runCfg (e : logEntry) : plotConfig :=
  ⟨e.Writers, e.Readers, e.Size, e.Vary⟩

/-- Appends one metric tuple, modelling
`measurements.Data[name] = append(measurements.Data[name], tuple)`. -/
def appendMetric (s : procState) (k : String) (v : List Rat) : procState :=
  { s with m := { s.m with Data := alistAppend s.m.Data k v } }

/-- The `switch entry.Message` of one loop iteration of `processFile`. -/
def stepMsg (s : procState) (e : logEntry) : Except PError procState :=
  if e.Message = "running" then
    if s.m.Engine ≠ "" then
      .error .duplicateMarker
    else
      .ok { s with m := { s.m with Engine := e.Engine, Config := runCfg e } }
  else if e.Message = "counter get" then
    .ok (appendMetric s "get rate" [e.Rate])
  else if e.Message = "counter set" then
    .ok (appendMetric s "set rate" [e.Rate])
  else if e.Message = "sample get.ready" then
    .ok (appendMetric s "get ready" [e.Mean, e.Min, e.Max])
  else if e.Message = "sample get.first" then
    .ok (appendMetric s "get first" [e.Mean, e.Min, e.Max])
  else if e.Message = "sample get.total" then
    .ok (appendMetric s "get total" [e.Mean, e.Min, e.Max])
  else if e.Message = "sample set" then
    .ok (appendMetric s "set" [e.Mean, e.Min, e.Max])
  else
    .ok s

/-- One full loop iteration of `processFile`: timestamp handling, then the
message switch. -/
def procStep (s : procState) (e : logEntry) : Except PError procState :=
  stepMsg (stepTs s e) e

/-- The decode loop of `processFile` over an already-decoded record list. -/
def procEntries (s : procState) : List logEntry → Except PError procState
  | [] => .ok s
  | e :: rest =>
    match procStep s e with
    | .error err => .error err
    | .ok s' => procEntries s' rest

/-- The common truncation length of the reconciliation step:
`length := len(Timestamps)` lowered by every shorter metric series. -/
def reconLength (m : plotMeasurements) : Nat :=
  m.Data.foldl (fun len kv => if kv.2.length < len then kv.2.length else len)
    m.Timestamps.length

/-- The reconciliation step at the end of `processFile`: truncate the
offsets and every metric series to the first `reconLength` entries. -/
def reconcile (m : plotMeasurements) : plotMeasurements :=
  let length := reconLength m
  { m with Timestamps := m.Timestamps.take length,
           Data := m.Data.map (fun kv => (kv.1, kv.2.take length)) }

/-- The initial `plotMeasurements` of `processFile` (Go zero values). -/
def initState : procState :=
  ⟨⟨"", ⟨0, 0, 0, false⟩, [], []⟩, none⟩

/-- `processFile`, over the decoded record stream of one input file. -/
def processFile (entries : List logEntry) : Except PError plotMeasurements :=
  match procEntries initState entries with
  | .error e => .error e
  | .ok s =>
    if s.m.Engine = "" then .error .missingMarker
    else .ok (reconcile s.m)

/-- A chart value: the first coordinate of a point is a `time.Duration`
quotient, the remaining coordinates are metric values. -/
inductive CVal where
  | dur (d : Int)
  | num (x : Rat)
deriving DecidableEq

/-- Row builder of `makeLineData`, indexing `timestamps[i]` like the Go
loop; `none` models the out-of-range panic.  The division is Go's `int64`
division on `time.Duration`, which truncates toward zero, i.e. `Int.tdiv`. -/
def makeLineRows (unit : Int) (timestamps : List Int) :
    Nat → List (List Rat) → Option (List (List CVal))
  | _, [] => some []
  | i, values :: rest =>
    match timestamps[i]? with
    | none => none
    | some t =>
      match makeLineRows unit timestamps (i + 1) rest with
      | none => none
      | some rs => some ((CVal.dur (Int.tdiv t unit) :: values.map CVal.num) :: rs)

/-- `makeLineData`, parametrised by the display unit `dataIntervalUnit`
(a `time.Duration` constant defined outside the given sources). -/
def makeLineData (unit : Int) (timestamps : List Int) (data : List (List Rat)) :
    Option (List (List CVal)) :=
  makeLineRows unit timestamps 0 data

/-- Series kinds of the emitted chart (`line.AddSeries` default vs
`types.ChartCustom`). -/
inductive SType where
  | line
  | custom
deriving DecidableEq

/-- One emitted series.  `hasRenderItem` records whether the series carries
the `renderErrorBars` render function (non-null `renderItem`); the
generated toggle equates a null `renderItem` with a hidden series. -/
structure chartSeries where
  name : String
  stype : SType
  hasRenderItem : Bool
  encode : Option (List Nat × List Nat)
  data : Option (List (List CVal))
deriving DecidableEq

/-- One emitted chart.  `configKey` and `better` model the subtitle content
(`writers`/`readers`/`size`/`vary` plus the hint line); `hasToggle` records
whether the `myErrorBars` toolbox feature holding `toggleErrorBars` was
attached. -/
structure chart where
  title : String
  configKey : plotConfig
  yAxisName : String
  better : String
  hasToggle : Bool
  series : List chartSeries
deriving DecidableEq

/-- Prefix test on character lists, used to model `strings.Contains`. -/
def strStartsWith : List Char → List Char → Bool
  | _, [] => true
  | [], _ :: _ => false
  | c :: cs, p :: ps => c = p && strStartsWith cs ps

/-- Substring search on character lists. -/
def listContains (p : List Char) : List Char → Bool
  | [] => p.isEmpty
  | c :: cs => strStartsWith (c :: cs) p || listContains p cs

/-- `strings.Contains s pat`. -/
def strContains (s pat : String) : Bool :=
  listContains pat.toList s.toList

/-- `renderPlot`, reduced to the chart content the claims are about.  The
rate branch sets the `ops/s` axis and no toolbox; the latency branch sets
the duration axis and the toggle toolbox, and adds per measurements one
custom series with the error-bars renderer attached and encode
`X=[0], Y=[2,3]` next to the plain line series. -/
def renderPlot (unit : Int) (config : plotConfig) (name : String)
    (allMeasurements : List plotMeasurements) : chart :=
  let isRate := strContains name "rate"
  { title := name
    configKey := config
    yAxisName := if isRate then "ops/s" else "duration (ms)"
    better := if isRate then "higher is better" else "lower is better"
    hasToggle := !isRate
    series := allMeasurements.foldr (fun m acc =>
      let d := makeLineData unit m.Timestamps (alistGet m.Data name)
      ⟨m.Engine, .line, false, none, d⟩ ::
        (if isRate then acc
         else ⟨m.Engine, .custom, true, some ([0], [2, 3]), d⟩ :: acc)) [] }

/-- The fixed metric vocabulary iterated by `renderData`. -/
def metricNames : List String :=
  ["get rate", "set rate", "get ready", "get first", "get total", "set"]

/-- `renderData`, reduced to the list of charts put on the page (the page
object itself only carries layout constants).  The group map is iterated in
insertion order; no claim depends on Go's map iteration order. -/
def renderData (unit : Int)
    (data : List (plotConfig × List plotMeasurements)) : List chart :=
  data.foldr (fun cfgMs acc =>
    metricNames.map (fun name => renderPlot unit cfgMs.1 name cfgMs.2) ++ acc) []

/-- The file loop of `Run`: process each file in order, aborting on the
first failure, and collect the measurements in file order. -/
def runFold : List (List logEntry) → List plotMeasurements →
    Except PError (List plotMeasurements)
  | [], acc => .ok acc
  | f :: rest, acc =>
    match processFile f with
    | .error e => .error e
    | .ok m => runFold rest (acc ++ [m])

/-- The grouping of `Run`: fold the measurements, in file order, into the
group map. -/
def groupFold (ms : List plotMeasurements) :
    List (plotConfig × List plotMeasurements) :=
  ms.foldl addToGroup []

/-- `Run` over already-decoded file contents: process every file, group,
render.  The output sink exists exactly when the result is `.ok`; on
`.error` the Go code returns before `os.Create` is reached. -/
def Run (unit : Int) (files : List (List logEntry)) :
    Except PError (List chart) :=
  match runFold files [] with
  | .error e => .error e
  | .ok ms => .ok (renderData unit (groupFold ms))

/-- The metric key and tuple a record's message tag contributes, read off
the cases of the `switch entry.Message` statement (none for the marker tag
and for unknown tags). -/
def metricEntry (e : logEntry) : Option (String × List Rat) :=
  if e.Message = "counter get" then some ("get rate", [e.Rate])
  else if e.Message = "counter set" then some ("set rate", [e.Rate])
  else if e.Message = "sample get.ready" then some ("get ready", [e.Mean, e.Min, e.Max])
  else if e.Message = "sample get.first" then some ("get first", [e.Mean, e.Min, e.Max])
  else if e.Message = "sample get.total" then some ("get total", [e.Mean, e.Min, e.Max])
  else if e.Message = "sample set" then some ("set", [e.Mean, e.Min, e.Max])
  else none

/-- The elapsed offset a record parsed at time `t` receives in state `s`:
zero for the first timestamped record, `t - start` afterwards. -/
def elapsedOffset (s : procState) (t : Int) : Int :=
  match s.start with
  | none => 0
  | some st => t - st

/-- The offset-sequence invariant of the accumulation loop, relative to the
parsed time `tp` of the most recent timestamped record (`none` before the
first): once the baseline is set, the offsets are strictly increasing,
start at `0`, and end at the last record's elapsed offset. -/
def tsInv (s : procState) (tp : Option Int) : Prop :=
  match s.start, tp with
  | none, none => s.m.Timestamps = []
  | some st, some t =>
    List.Chain' (· < ·) s.m.Timestamps ∧
    s.m.Timestamps.head? = some 0 ∧
    s.m.Timestamps.getLast? = some (t - st)
  | _, _ => False

/-- The marker records of a stream (message tag "running"). -/
def runningRecs (entries : List logEntry) : List logEntry :=
  entries.filter (fun e => e.Message = "running")

/-- The engine fields of a stream's marker records, in order. -/
def markerEngines (entries : List logEntry) : List String :=
  (runningRecs entries).map (fun e => e.Engine)

/-! Concrete inputs used by the witness and counterexample theorems below. -/

/-- A well-formed marker record. -/
def exMarker : logEntry :=
  { Message := "running", Engine := "X", Writers := 2, Readers := 4,
    Size := 1024, Vary := false }

/-- The configuration carried by `exMarker`. -/
def exCfg : plotConfig := ⟨2, 4, 1024, false⟩

/-- A throughput record at parsed time `t` with rate `r`. -/
def exGet (t : Int) (r : Rat) : logEntry :=
  { Message := "counter get", Timestamp := some t, Rate := r }

/-- A record carrying only a parsed timestamp (its message tag is unknown
to the switch). -/
def exTs (t : Int) : logEntry :=
  { Timestamp := some t }

/-- A latency record at parsed time `t`. -/
def exSample (t : Int) (mean mn mx : Rat) : logEntry :=
  { Message := "sample set", Timestamp := some t, Mean := mean, Min := mn, Max := mx }

/-- A small accepted input file: marker, then two throughput records. -/
def c1entries : List logEntry := [exMarker, exGet 0 100, exGet 1 150]

/-- The measurements `processFile` produces from `c1entries`. -/
def measC1 : plotMeasurements :=
  ⟨"X", exCfg, [0, 1], [("get rate", [[100], [150]])]⟩

/-- A pre-reconciliation state with a metric series shorter than the
offset sequence. -/
def c1pre : plotMeasurements :=
  ⟨"X", exCfg, [0, 1, 2], [("get rate", [[1], [2]])]⟩

/-- An accepted input file whose timestamped records are out of order. -/
def c2bad : List logEntry := [exMarker, exTs 0, exTs 2, exTs 1]

/-- The measurements `processFile` produces from `c2bad`: the offset
sequence `[0, 2, 1]` is not strictly increasing. -/
def measC2bad : plotMeasurements := ⟨"X", exCfg, [0, 2, 1], []⟩

/-- A sorted accepted input file with a duplicate offset. -/
def c2good : List logEntry := [exMarker, exGet 0 100, exGet 5 150, exTs 5, exGet 9 130]

/-- A file where a duplicate-offset record carries a metric payload:
marker, a throughput record at offset `0`, an unknown-tag record at offset
`1`, then a throughput record again at offset `1`. -/
def c3entries : List logEntry := [exMarker, exGet 0 100, exTs 1, exGet 1 150]

/-- The measurements `processFile` produces from `c3entries`: the
duplicate-offset record contributed `[150]` to the series. -/
def measC3 : plotMeasurements :=
  ⟨"X", exCfg, [0, 1], [("get rate", [[100], [150]])]⟩

/-- `c3entries` without the duplicate-offset record. -/
def c3entriesNoDup : List logEntry := [exMarker, exGet 0 100, exTs 1]

/-- The measurements `processFile` produces from `c3entriesNoDup`. -/
def measC3NoDup : plotMeasurements :=
  ⟨"X", exCfg, [0], [("get rate", [[100]])]⟩

/-- A file whose only record is a marker with an empty engine field. -/
def c4entries : List logEntry := [{ Message := "running", Engine := "" }]

/-- The measurements `processFile` produces from `c2good`. -/
def measC2good : plotMeasurements :=
  ⟨"X", exCfg, [0, 5, 9], [("get rate", [[100], [150], [130]])]⟩

/-- The state reached from `initState` by one record timestamped `5`. -/
def c8s1 : procState := ⟨⟨"", ⟨0, 0, 0, false⟩, [0], []⟩, some 5⟩

/-- The state reached after marker, a throughput record at time `0` and a
timestamp-only record at time `1`. -/
def c3state : procState := ⟨⟨"X", exCfg, [0, 1], [("get rate", [[100]])]⟩, some 0⟩

/-- Two single-measurement example runs sharing `exCfg`. -/
def measA : plotMeasurements := ⟨"X", exCfg, [0], []⟩

/-- A second run sharing `exCfg`. -/
def measB : plotMeasurements := ⟨"Y", exCfg, [0], [("set", [[3, 1, 7]])]⟩

/-! Association-list lemmas. -/

theorem alistAppend_cons_ne [DecidableEq κ] {kv : κ × List α} {k : κ}
    (h : ¬ kv.1 = k) (g : List (κ × List α)) (v : α) :
    alistAppend (kv :: g) k v = kv :: alistAppend g k v := by
  by_cases hg : g.any (fun kv => kv.1 = k) = true
  · simp [alistAppend, h, hg]
  · simp [alistAppend, h, hg]

theorem alistGet_cons_ne [DecidableEq κ] {kv : κ × List α} {k : κ}
    (h : ¬ kv.1 = k) (g : List (κ × List α)) :
    alistGet (kv :: g) k = alistGet g k := by
  simp [alistGet, List.find?_cons, h]

theorem alistGet_cons_eq [DecidableEq κ] {kv : κ × List α} {k : κ}
    (h : kv.1 = k) (g : List (κ × List α)) :
    alistGet (kv :: g) k = kv.2 := by
  simp [alistGet, List.find?_cons, h]

theorem alistGet_append_self [DecidableEq κ] :
    ∀ (g : List (κ × List α)) (k : κ) (v : α),
      alistGet (alistAppend g k v) k = alistGet g k ++ [v] := by
  intro g k v
  induction g with
  | nil => simp [alistAppend, alistGet]
  | cons kv g ih =>
    by_cases h : kv.1 = k
    · have hg : ((kv :: g).any (fun kv => kv.1 = k)) = true := by simp [List.any_cons, h]
      rw [alistAppend, if_pos hg, List.map_cons, if_pos h]
      rw [alistGet_cons_eq (show (kv.1, kv.2 ++ [v]).1 = k from h)]
      rw [alistGet_cons_eq h]
    · rw [alistAppend_cons_ne h, alistGet_cons_ne h, alistGet_cons_ne h, ih]

theorem alistGet_map_update_ne [DecidableEq κ] {k c : κ} (hne : ¬ k = c) (v : α) :
    ∀ g : List (κ × List α),
      alistGet (g.map (fun kv => if kv.1 = k then (kv.1, kv.2 ++ [v]) else kv)) c =
        alistGet g c := by
  intro g
  induction g with
  | nil => simp
  | cons kv g ih =>
    by_cases h : kv.1 = k
    · rw [List.map_cons, if_pos h]
      rw [alistGet_cons_ne (show ¬ (kv.1, kv.2 ++ [v]).1 = c from h ▸ hne)]
      rw [alistGet_cons_ne (h ▸ hne), ih]
    · rw [List.map_cons, if_neg h]
      by_cases hc : kv.1 = c
      · rw [alistGet_cons_eq hc, alistGet_cons_eq hc]
      · rw [alistGet_cons_ne hc, alistGet_cons_ne hc, ih]

theorem alistGet_append_ne [DecidableEq κ] {k c : κ} (hne : ¬ k = c) :
    ∀ (g : List (κ × List α)) (v : α),
      alistGet (alistAppend g k v) c = alistGet g c := by
  intro g v
  induction g with
  | nil => simp [alistAppend, alistGet, fun h => hne h]
  | cons kv g ih =>
    by_cases h : kv.1 = k
    · have hg : ((kv :: g).any (fun kv => kv.1 = k)) = true := by simp [List.any_cons, h]
      rw [alistAppend, if_pos hg, List.map_cons, if_pos h]
      rw [alistGet_cons_ne (show ¬ (kv.1, kv.2 ++ [v]).1 = c from h ▸ hne)]
      by_cases hc : kv.1 = c
      · exact absurd (h ▸ hc : k = c) hne
      · rw [alistGet_cons_ne hc, alistGet_map_update_ne hne]
    · rw [alistAppend_cons_ne h]
      by_cases hc : kv.1 = c
      · rw [alistGet_cons_eq hc, alistGet_cons_eq hc]
      · rw [alistGet_cons_ne hc, alistGet_cons_ne hc, ih]

theorem alistGet_map_take [DecidableEq κ] (n : Nat) (k : κ) :
    ∀ g : List (κ × List (List α)),
      alistGet (g.map (fun kv => (kv.1, kv.2.take n))) k = (alistGet g k).take n := by
  intro g
  induction g with
  | nil => simp [alistGet]
  | cons kv g ih =>
    by_cases h : kv.1 = k
    · rw [List.map_cons, alistGet_cons_eq (show (kv.1, kv.2.take n).1 = k from h),
        alistGet_cons_eq h]
    · rw [List.map_cons, alistGet_cons_ne (show ¬ (kv.1, kv.2.take n).1 = k from h),
        alistGet_cons_ne h, ih]

theorem reconFold_le_init (l : List (String × List (List Rat))) :
    ∀ i : Nat,
      l.foldl (fun len kv => if kv.2.length < len then kv.2.length else len) i ≤ i := by
  induction l with
  | nil => intro i; exact Nat.le_refl i
  | cons kv l ih =>
    intro i
    refine Nat.le_trans (ih _) ?_
    by_cases h : kv.2.length < i
    · simpa [h] using Nat.le_of_lt h
    · simp [h]

theorem reconFold_le_mem (l : List (String × List (List Rat))) :
    ∀ (i : Nat) (kv : String × List (List Rat)), kv ∈ l →
      l.foldl (fun len kv => if kv.2.length < len then kv.2.length else len) i ≤
        kv.2.length := by
  induction l with
  | nil => intro i kv h; cases h
  | cons hd l ih =>
    intro i kv h
    rcases List.mem_cons.1 h with rfl | h
    · refine Nat.le_trans (reconFold_le_init l _) ?_
      by_cases hlt : kv.2.length < i
      · simp [hlt]
      · simpa [hlt] using Nat.le_of_not_lt hlt
    · exact ih _ kv h

theorem reconLength_le_timestamps (m : plotMeasurements) :
    reconLength m ≤ m.Timestamps.length :=
  reconFold_le_init m.Data m.Timestamps.length

theorem reconLength_le_series (m : plotMeasurements) {kv : String × List (List Rat)}
    (h : kv ∈ m.Data) : reconLength m ≤ kv.2.length :=
  reconFold_le_mem m.Data m.Timestamps.length kv h

theorem reconcile_timestamps_length (m : plotMeasurements) :
    (reconcile m).Timestamps.length = reconLength m := by
  simp [reconcile, List.length_take]
  exact reconLength_le_timestamps m

theorem reconcile_series_length (m : plotMeasurements) :
    ∀ kv ∈ (reconcile m).Data, kv.2.length = (reconcile m).Timestamps.length := by
  intro kv hkv
  simp only [reconcile] at hkv
  rcases List.mem_map.1 hkv with ⟨kv0, hkv0, rfl⟩
  rw [reconcile_timestamps_length]
  simp only [List.length_take]
  exact Nat.min_eq_left (reconLength_le_series m hkv0)

theorem processFile_ok {entries : List logEntry} {meas : plotMeasurements}
    (h : processFile entries = .ok meas) :
    ∃ s, procEntries initState entries = .ok s ∧ ¬ s.m.Engine = "" ∧
      meas = reconcile s.m := by
  unfold processFile at h
  split at h
  · cases h
  · next s hs =>
    split_ifs at h with he
    cases h
    exact ⟨s, hs, he, rfl⟩

/-- C1: on stream exhaustion `processFile` computes the reconciliation
length `L` as the minimum of the offset-sequence length and every recorded
metric series length, truncates the offset sequence and every metric
series to their first `L` entries (so `L` is at most every
pre-reconciliation length and nothing is padded), and afterwards every
metric series has length equal to the offset-sequence length. -/
theorem C1_reconciliation_truncates :
    (∀ m : plotMeasurements,
      reconLength m ≤ m.Timestamps.length ∧
      (∀ kv ∈ m.Data, reconLength m ≤ kv.2.length) ∧
      (reconcile m).Timestamps = m.Timestamps.take (reconLength m) ∧
      (reconcile m).Data = m.Data.map (fun kv => (kv.1, kv.2.take (reconLength m))) ∧
      (∀ kv ∈ (reconcile m).Data, kv.2.length = (reconcile m).Timestamps.length)) ∧
    (∀ (entries : List logEntry) (meas : plotMeasurements),
      processFile entries = .ok meas →
      ∀ kv ∈ meas.Data, kv.2.length = meas.Timestamps.length) := by
  constructor
  · intro m
    exact ⟨reconLength_le_timestamps m, fun kv hkv => reconLength_le_series m hkv,
      rfl, rfl, reconcile_series_length m⟩
  · intro entries meas h kv hkv
    rcases processFile_ok h with ⟨s, _, _, rfl⟩
    exact reconcile_series_length s.m kv hkv

/-- Witness for C1: a concrete pre-reconciliation state with a short
series, and a concrete accepted file. -/
theorem C1_reconciliation_truncates_witness :
    (reconLength c1pre ≤ c1pre.Timestamps.length ∧
      (reconcile c1pre).Timestamps = c1pre.Timestamps.take (reconLength c1pre)) ∧
    ("get rate", [[(100 : Rat)], [150]]).2.length = measC1.Timestamps.length :=
  ⟨⟨(C1_reconciliation_truncates.1 c1pre).1,
    (C1_reconciliation_truncates.1 c1pre).2.2.1⟩,
    C1_reconciliation_truncates.2 c1entries measC1 (by rfl)
      ("get rate", [[(100 : Rat)], [150]]) (by decide)⟩

/-- C7: a chart whose metric name contains "rate" gets the "ops/s" axis,
the "higher is better" hint and no error-bar toggle; any other chart gets
the duration axis, the "lower is better" hint and the toggle control.
Among the fixed metric vocabulary exactly "get rate" and "set rate" take
the rate branch. -/
theorem C7_axis_selection :
    (∀ (unit : Int) (config : plotConfig) (name : String)
        (allMeasurements : List plotMeasurements),
      (renderPlot unit config name allMeasurements).yAxisName =
        (if strContains name "rate" then "ops/s" else "duration (ms)") ∧
      (renderPlot unit config name allMeasurements).better =
        (if strContains name "rate" then "higher is better" else "lower is better") ∧
      (renderPlot unit config name allMeasurements).hasToggle =
        !(strContains name "rate")) ∧
    metricNames.filter (fun n => strContains n "rate") = ["get rate", "set rate"] :=
  ⟨fun _ _ _ _ => ⟨rfl, rfl, rfl⟩, by decide⟩

theorem groupFold_get :
    ∀ (ms : List plotMeasurements) (g : List (plotConfig × List plotMeasurements))
      (c : plotConfig),
      alistGet (ms.foldl addToGroup g) c =
        alistGet g c ++ ms.filter (fun m => m.Config = c) := by
  intro ms
  induction ms with
  | nil => intro g c; simp
  | cons m ms ih =>
    intro g c
    rw [List.foldl_cons, ih]
    by_cases h : m.Config = c
    · subst h
      rw [addToGroup, alistGet_append_self]
      simp [List.filter_cons, List.append_assoc]
    · rw [addToGroup, alistGet_append_ne h]
      simp [List.filter_cons, h]

/-- C9: the group of a configuration is exactly the file-ordered list of
runs carrying a field-wise equal configuration, so equal-config runs land
in the same bucket whatever the file order, and within a bucket runs keep
file-processing order. -/
theorem C9_grouping_by_config :
    (∀ (ms : List plotMeasurements) (c : plotConfig),
      alistGet (groupFold ms) c = ms.filter (fun m => m.Config = c)) ∧
    (∀ ms ms' : List plotMeasurements, ms.Perm ms' →
      ∀ (c : plotConfig) (m : plotMeasurements),
        m ∈ alistGet (groupFold ms) c ↔ m ∈ alistGet (groupFold ms') c) := by
  have key : ∀ (ms : List plotMeasurements) (c : plotConfig),
      alistGet (groupFold ms) c = ms.filter (fun m => m.Config = c) := by
    intro ms c
    simpa [groupFold] using groupFold_get ms [] c
  refine ⟨key, ?_⟩
  intro ms ms' hperm c m
  rw [key, key]
  constructor <;> intro hm
  · exact List.mem_filter.2
      ⟨hperm.mem_iff.1 (List.mem_filter.1 hm).1, (List.mem_filter.1 hm).2⟩
  · exact List.mem_filter.2
      ⟨hperm.mem_iff.2 (List.mem_filter.1 hm).1, (List.mem_filter.1 hm).2⟩

/-- Witness for C9: two concrete runs sharing a configuration, grouped in
both file orders. -/
theorem C9_grouping_by_config_witness :
    measA ∈ alistGet (groupFold [measA, measB]) exCfg ↔
      measA ∈ alistGet (groupFold [measB, measA]) exCfg :=
  C9_grouping_by_config.2 [measA, measB] [measB, measA]
    (List.Perm.swap measB measA []) exCfg measA

theorem makeLineRows_spec (unit : Int) (ts : List Int) :
    ∀ (data : List (List Rat)) (i : Nat), i + data.length ≤ ts.length →
      makeLineRows unit ts i data =
        some (List.zipWith
          (fun t vs => CVal.dur (Int.tdiv t unit) :: vs.map CVal.num)
          (ts.drop i) data) := by
  intro data
  induction data with
  | nil => intro i h; simp [makeLineRows]
  | cons vs rest ih =>
    intro i h
    have hi : i < ts.length := by
      simp only [List.length_cons] at h
      omega
    have hrec : (i + 1) + rest.length ≤ ts.length := by
      simp only [List.length_cons] at h
      omega
    rw [makeLineRows, List.getElem?_eq_getElem hi, ih (i + 1) hrec,
      List.drop_eq_getElem_cons hi]
    rfl

theorem reconcile_get (m : plotMeasurements) (name : String) :
    alistGet (reconcile m).Data name = (alistGet m.Data name).take (reconLength m) := by
  simp only [reconcile]
  exact alistGet_map_take (reconLength m) name m.Data

/-- C10: on reconciled measurements `makeLineData` never indexes the offset
sequence out of range and returns exactly one chart point per data row:
the row's offset divided by the display time unit, followed by the row's
values in order. -/
theorem C10_makeLineData_total :
    (∀ (unit : Int) (ts : List Int) (data : List (List Rat)),
      data.length ≤ ts.length →
      makeLineData unit ts data =
        some (List.zipWith
          (fun t vs => CVal.dur (Int.tdiv t unit) :: vs.map CVal.num) ts data) ∧
      (List.zipWith (fun t vs => CVal.dur (Int.tdiv t unit) :: vs.map CVal.num)
          ts data).length = data.length) ∧
    (∀ (unit : Int) (entries : List logEntry) (meas : plotMeasurements)
        (name : String),
      processFile entries = .ok meas →
      ∃ rows,
        makeLineData unit meas.Timestamps (alistGet meas.Data name) = some rows ∧
        rows.length = (alistGet meas.Data name).length ∧
        rows = List.zipWith
          (fun t vs => CVal.dur (Int.tdiv t unit) :: vs.map CVal.num)
          meas.Timestamps (alistGet meas.Data name)) := by
  have base : ∀ (unit : Int) (ts : List Int) (data : List (List Rat)),
      data.length ≤ ts.length →
      makeLineData unit ts data =
        some (List.zipWith
          (fun t vs => CVal.dur (Int.tdiv t unit) :: vs.map CVal.num) ts data) := by
    intro unit ts data h
    have := makeLineRows_spec unit ts data 0 (by simpa using h)
    simpa [makeLineData] using this
  constructor
  · intro unit ts data h
    refine ⟨base unit ts data h, ?_⟩
    simp [List.length_zipWith]
    omega
  · intro unit entries meas name h
    rcases processFile_ok h with ⟨s, _, _, rfl⟩
    have hlen : (alistGet (reconcile s.m).Data name).length ≤
        (reconcile s.m).Timestamps.length := by
      rw [reconcile_get, reconcile_timestamps_length, List.length_take]
      exact Nat.min_le_left _ _
    exact ⟨_, base unit _ _ hlen, by simp [List.length_zipWith]; omega, rfl⟩

/-- Witness for C10 at a concrete accepted file and metric name. -/
theorem C10_makeLineData_total_witness :
    ∃ rows,
      makeLineData 1 measC1.Timestamps (alistGet measC1.Data "get rate") = some rows ∧
      rows.length = (alistGet measC1.Data "get rate").length ∧
      rows = List.zipWith
        (fun t vs => CVal.dur (Int.tdiv t 1) :: vs.map CVal.num)
        measC1.Timestamps (alistGet measC1.Data "get rate") :=
  C10_makeLineData_total.2 1 c1entries measC1 "get rate" (by rfl)

theorem runFold_ok_iff :
    ∀ (files : List (List logEntry)) (acc : List plotMeasurements),
      (∃ ms, runFold files acc = .ok ms) ↔
        ∀ f ∈ files, ∃ m, processFile f = .ok m := by
  intro files
  induction files with
  | nil => intro acc; simp [runFold]
  | cons f rest ih =>
    intro acc
    constructor
    · rintro ⟨ms, hms⟩ g hg
      simp only [runFold] at hms
      cases hpf : processFile f with
      | error e =>
        simp only [hpf] at hms
        cases hms
      | ok m =>
        simp only [hpf] at hms
        rcases List.mem_cons.1 hg with rfl | hg
        · exact ⟨m, hpf⟩
        · exact (ih (acc ++ [m])).1 ⟨ms, hms⟩ g hg
    · intro hall
      rcases hall f (List.mem_cons_self f rest) with ⟨m, hm⟩
      rcases (ih (acc ++ [m])).2
        (fun g hg => hall g (List.mem_cons_of_mem f hg)) with ⟨ms, hms⟩
      refine ⟨ms, ?_⟩
      simp only [runFold, hm]
      exact hms

theorem runFold_err :
    ∀ (files : List (List logEntry)) (acc : List plotMeasurements) (e : PError),
      runFold files acc = .error e → ∃ f ∈ files, processFile f = .error e := by
  intro files
  induction files with
  | nil => intro acc e h; cases h
  | cons f rest ih =>
    intro acc e h
    simp only [runFold] at h
    cases hpf : processFile f with
    | error e2 =>
      simp only [hpf] at h
      cases h
      exact ⟨f, List.mem_cons_self f rest, hpf⟩
    | ok m =>
      simp only [hpf] at h
      rcases ih (acc ++ [m]) e h with ⟨g, hg, hge⟩
      exact ⟨g, List.mem_cons_of_mem f hg, hge⟩

/-- C5: the batch produces a chart page exactly when every input file
processes successfully; on any failure `Run` reports that file's error and
produces nothing (in Go the early return precedes `os.Create`, so the
output sink is never created or written). -/
theorem C5_no_partial_output :
    (∀ (unit : Int) (files : List (List logEntry)),
      (∃ cs, Run unit files = .ok cs) ↔ ∀ f ∈ files, ∃ m, processFile f = .ok m) ∧
    (∀ (unit : Int) (files : List (List logEntry)) (e : PError),
      Run unit files = .error e → ∃ f ∈ files, processFile f = .error e) := by
  constructor
  · intro unit files
    constructor
    · rintro ⟨cs, hcs⟩
      unfold Run at hcs
      cases hr : runFold files [] with
      | error e =>
        simp only [hr] at hcs
        cases hcs
      | ok ms => exact (runFold_ok_iff files []).1 ⟨ms, hr⟩
    · intro hall
      rcases (runFold_ok_iff files []).2 hall with ⟨ms, hms⟩
      refine ⟨renderData unit (groupFold ms), ?_⟩
      unfold Run
      simp only [hms]
  · intro unit files e h
    unfold Run at h
    cases hr : runFold files [] with
    | error e2 =>
      simp only [hr] at h
      cases h
      exact runFold_err files [] _ hr
    | ok ms =>
      simp only [hr] at h
      cases h

/-- Witness for C5: a concrete batch of one accepted file produces output. -/
theorem C5_no_partial_output_witness :
    ∃ cs, Run 1 [c1entries] = .ok cs :=
  (C5_no_partial_output.1 1 [c1entries]).2 (by
    intro f hf
    rw [List.mem_singleton] at hf
    subst hf
    exact ⟨measC1, by rfl⟩)

theorem stepTs_none {s : procState} {e : logEntry} (h : e.Timestamp = none) :
    stepTs s e = s := by
  unfold stepTs
  rw [h]

theorem stepTs_first {s : procState} {e : logEntry} {t : Int}
    (h : e.Timestamp = some t) (h2 : s.start = none) :
    stepTs s e =
      { s with start := some t,
               m := { s.m with Timestamps := s.m.Timestamps ++ [0] } } := by
  unfold stepTs
  rw [h, h2]

theorem stepTs_app {s : procState} {e : logEntry} {t st : Int}
    (h : e.Timestamp = some t) (h2 : s.start = some st)
    (h3 : ¬ s.m.Timestamps.getLast? = some (t - st)) :
    stepTs s e =
      { s with m := { s.m with Timestamps := s.m.Timestamps ++ [t - st] } } := by
  unfold stepTs
  rw [h, h2]
  simp [h3]

theorem stepTs_dup {s : procState} {e : logEntry} {t st : Int}
    (h : e.Timestamp = some t) (h2 : s.start = some st)
    (h3 : s.m.Timestamps.getLast? = some (t - st)) :
    stepTs s e = s := by
  unfold stepTs
  rw [h, h2]
  simp [h3]

theorem stepTs_fields (s : procState) (e : logEntry) :
    (stepTs s e).m.Engine = s.m.Engine ∧ (stepTs s e).m.Config = s.m.Config ∧
      (stepTs s e).m.Data = s.m.Data := by
  cases h : e.Timestamp with
  | none => rw [stepTs_none h]; exact ⟨rfl, rfl, rfl⟩
  | some t =>
    cases h2 : s.start with
    | none => rw [stepTs_first h h2]; exact ⟨rfl, rfl, rfl⟩
    | some st =>
      by_cases h3 : s.m.Timestamps.getLast? = some (t - st)
      · rw [stepTs_dup h h2 h3]; exact ⟨rfl, rfl, rfl⟩
      · rw [stepTs_app h h2 h3]; exact ⟨rfl, rfl, rfl⟩

theorem stepMsg_ok_fields {s s' : procState} {e : logEntry}
    (h : stepMsg s e = .ok s') :
    s'.m.Timestamps = s.m.Timestamps ∧ s'.start = s.start := by
  unfold stepMsg at h
  split_ifs at h <;> cases h <;> exact ⟨rfl, rfl⟩

theorem stepMsg_not_running {s : procState} {e : logEntry}
    (h : ¬ e.Message = "running") :
    ∃ s', stepMsg s e = .ok s' ∧ s'.m.Engine = s.m.Engine ∧
      s'.m.Config = s.m.Config ∧ s'.m.Timestamps = s.m.Timestamps ∧
      s'.start = s.start := by
  unfold stepMsg
  rw [if_neg h]
  split_ifs <;> exact ⟨_, rfl, rfl, rfl, rfl, rfl⟩

theorem stepMsg_running_dup {s : procState} {e : logEntry}
    (h : e.Message = "running") (h2 : ¬ s.m.Engine = "") :
    stepMsg s e = .error .duplicateMarker := by
  unfold stepMsg
  rw [if_pos h, if_pos h2]

theorem stepMsg_running_ok {s : procState} {e : logEntry}
    (h : e.Message = "running") (h2 : s.m.Engine = "") :
    stepMsg s e =
      .ok { s with m := { s.m with Engine := e.Engine, Config := runCfg e } } := by
  unfold stepMsg
  rw [if_pos h, if_neg (not_not_intro h2)]

theorem stepMsg_metric {s : procState} {e : logEntry} {k : String} {v : List Rat}
    (h : metricEntry e = some (k, v)) :
    stepMsg s e = .ok (appendMetric s k v) := by
  unfold metricEntry at h
  split_ifs at h with h1 h2 h3 h4 h5 h6
  · cases h; simp [stepMsg, h1]
  · cases h; simp [stepMsg, h2]
  · cases h; simp [stepMsg, h3]
  · cases h; simp [stepMsg, h4]
  · cases h; simp [stepMsg, h5]
  · cases h; simp [stepMsg, h6]

/-- C8: two consecutive timestamped records whose timestamps yield
identical elapsed offsets produce exactly one entry in the offset
sequence: the first record appends the shared offset precisely when it
differs from the current last entry, the second record never appends, and
the shared offset ends up as the single last entry. -/
theorem C8_duplicate_offset_coalesced {s s1 s2 : procState} {e1 e2 : logEntry}
    {t : Int}
    (h1 : e1.Timestamp = some t) (h2 : e2.Timestamp = some t)
    (hreach : s.start = none → s.m.Timestamps = [])
    (hs1 : procStep s e1 = .ok s1) (hs2 : procStep s1 e2 = .ok s2) :
    s2.m.Timestamps = s1.m.Timestamps ∧
    s1.m.Timestamps.getLast? = some (elapsedOffset s t) ∧
    ((s.m.Timestamps.getLast? = some (elapsedOffset s t) ∧
        s1.m.Timestamps = s.m.Timestamps) ∨
      (¬ s.m.Timestamps.getLast? = some (elapsedOffset s t) ∧
        s1.m.Timestamps = s.m.Timestamps ++ [elapsedOffset s t])) := by
  have hs1' : stepMsg (stepTs s e1) e1 = .ok s1 := hs1
  have hs2' : stepMsg (stepTs s1 e2) e2 = .ok s2 := hs2
  have f1 := stepMsg_ok_fields hs1'
  have f2 := stepMsg_ok_fields hs2'
  cases hst : s.start with
  | none =>
    have hTs := hreach hst
    simp only [stepTs_first h1 hst] at f1
    have hoff : elapsedOffset s t = 0 := by simp [elapsedOffset, hst]
    have hlast1 : s1.m.Timestamps.getLast? = some 0 := by
      rw [f1.1, List.getLast?_concat]
    have hdup2 : stepTs s1 e2 = s1 :=
      stepTs_dup h2 f1.2 (by simp [hlast1])
    rw [hdup2] at f2
    refine ⟨f2.1, ?_, Or.inr ⟨?_, ?_⟩⟩
    · rw [hoff]; exact hlast1
    · rw [hoff, hTs]; simp
    · rw [hoff]; exact f1.1
  | some st =>
    have hoff : elapsedOffset s t = t - st := by simp [elapsedOffset, hst]
    by_cases hd : s.m.Timestamps.getLast? = some (t - st)
    · rw [stepTs_dup h1 hst hd] at f1
      have hlast1 : s1.m.Timestamps.getLast? = some (t - st) := by
        rw [f1.1]; exact hd
      have hstart1 : s1.start = some st := by rw [f1.2]; exact hst
      rw [stepTs_dup h2 hstart1 hlast1] at f2
      exact ⟨f2.1, by rw [hoff]; exact hlast1,
        Or.inl ⟨by rw [hoff]; exact hd, f1.1⟩⟩
    · simp only [stepTs_app h1 hst hd] at f1
      have hlast1 : s1.m.Timestamps.getLast? = some (t - st) := by
        rw [f1.1]; exact List.getLast?_concat _
      have hstart1 : s1.start = some st := by rw [f1.2]; exact hst
      rw [stepTs_dup h2 hstart1 hlast1] at f2
      exact ⟨f2.1, by rw [hoff]; exact hlast1,
        Or.inr ⟨by rw [hoff]; exact hd, by rw [hoff]; exact f1.1⟩⟩

/-- Witness for C8: two records timestamped `5` processed from the initial
state; the pair creates the single offset entry `0`. -/
theorem C8_duplicate_offset_coalesced_witness :
    c8s1.m.Timestamps = c8s1.m.Timestamps ∧
    c8s1.m.Timestamps.getLast? = some (elapsedOffset initState 5) ∧
    ((initState.m.Timestamps.getLast? = some (elapsedOffset initState 5) ∧
        c8s1.m.Timestamps = initState.m.Timestamps) ∨
      (¬ initState.m.Timestamps.getLast? = some (elapsedOffset initState 5) ∧
        c8s1.m.Timestamps = initState.m.Timestamps ++ [elapsedOffset initState 5])) :=
  @C8_duplicate_offset_coalesced initState c8s1 c8s1 (exTs 5) (exTs 5) 5
    (by rfl) (by rfl) (fun _ => rfl) (by rfl) (by rfl)

/-- C3 (amended): a timestamped record whose elapsed offset equals the
immediately preceding offset is coalesced only on the offset side: it
contributes no new offset entry, but its metric payload (for a known
metric tag) is still appended to that metric's series. -/
theorem C3_duplicate_offset_keeps_payload {s : procState} {e : logEntry}
    {t st : Int} {k : String} {v : List Rat}
    (h1 : e.Timestamp = some t) (h2 : s.start = some st)
    (h3 : s.m.Timestamps.getLast? = some (t - st))
    (h4 : metricEntry e = some (k, v)) :
    procStep s e = .ok (appendMetric s k v) ∧
    (appendMetric s k v).m.Timestamps = s.m.Timestamps ∧
    alistGet (appendMetric s k v).m.Data k = alistGet s.m.Data k ++ [v] := by
  refine ⟨?_, rfl, alistGet_append_self s.m.Data k v⟩
  unfold procStep
  rw [stepTs_dup h1 h2 h3]
  exact stepMsg_metric h4

/-- Witness for the amended C3 at a concrete state and record. -/
theorem C3_duplicate_offset_keeps_payload_witness :
    procStep c3state (exGet 1 150) =
      .ok (appendMetric c3state "get rate" [150]) ∧
    (appendMetric c3state "get rate" [150]).m.Timestamps = c3state.m.Timestamps ∧
    alistGet (appendMetric c3state "get rate" [150]).m.Data "get rate" =
      alistGet c3state.m.Data "get rate" ++ [[150]] := by
  have h := @C3_duplicate_offset_keeps_payload c3state (exGet 1 150) 1 0
    "get rate" [150] (by rfl) (by rfl) (by decide) (by rfl)
  exact ⟨h.1, h.2.1, by rw [h.2.2]⟩

/-- Counterexample to C3 as stated: in `c3entries` the last record has the
same elapsed offset (1) as its predecessor, yet its rate payload 150
appears in the final "get rate" series, so the duplicate sample does
contribute a new entry to a metric series (compare `c3entriesNoDup`,
identical except for that record). -/
theorem C3_counterexample :
    processFile c3entries = .ok measC3 ∧
    processFile c3entriesNoDup = .ok measC3NoDup ∧
    alistGet measC3.Data "get rate" = [[100], [150]] ∧
    ¬ alistGet measC3.Data "get rate" = alistGet measC3NoDup.Data "get rate" :=
  ⟨by rfl, by rfl, by rfl, by decide⟩

theorem tsInv_congr {s s' : procState} {tp : Option Int}
    (hts : s'.m.Timestamps = s.m.Timestamps) (hst : s'.start = s.start)
    (h : tsInv s tp) : tsInv s' tp := by
  unfold tsInv at h ⊢
  rw [hts, hst]
  exact h

theorem procEntries_tsInv :
    ∀ (entries : List logEntry) (s : procState) (tp : Option Int) (s' : procState),
      tsInv s tp →
      List.Chain' (· ≤ ·) (tp.toList ++ entries.filterMap (fun e => e.Timestamp)) →
      procEntries s entries = .ok s' →
      ∃ tp', tsInv s' tp' := by
  intro entries
  induction entries with
  | nil =>
    intro s tp s' hinv _ h
    cases h
    exact ⟨tp, hinv⟩
  | cons e rest ih =>
    intro s tp s' hinv hchain h
    simp only [procEntries] at h
    cases hstep : procStep s e with
    | error err =>
      simp only [hstep] at h
      cases h
    | ok s1 =>
      simp only [hstep] at h
      have hstep' : stepMsg (stepTs s e) e = .ok s1 := hstep
      have f1 := stepMsg_ok_fields hstep'
      cases hts : e.Timestamp with
      | none =>
        rw [stepTs_none hts] at f1
        have hinv1 : tsInv s1 tp := tsInv_congr f1.1 f1.2 hinv
        have hchain1 :
            List.Chain' (· ≤ ·) (tp.toList ++ rest.filterMap (fun e => e.Timestamp)) := by
          simpa [List.filterMap_cons, hts] using hchain
        exact ih s1 tp s' hinv1 hchain1 h
      | some t =>
        cases htp : tp with
        | none =>
          cases hss : s.start with
          | some st =>
            exfalso
            unfold tsInv at hinv
            rw [hss, htp] at hinv
            exact hinv
          | none =>
            have hTs : s.m.Timestamps = [] := by
              unfold tsInv at hinv
              rw [hss, htp] at hinv
              exact hinv
            simp only [stepTs_first hts hss] at f1
            have hinv1 : tsInv s1 (some t) := by
              unfold tsInv
              rw [f1.2, f1.1, hTs]
              refine ⟨by simp, by simp, by simp⟩
            have hchain1 :
                List.Chain' (· ≤ ·)
                  ((some t).toList ++ rest.filterMap (fun e => e.Timestamp)) := by
              rw [htp] at hchain
              simpa [List.filterMap_cons, hts] using hchain
            exact ih s1 (some t) s' hinv1 hchain1 h
        | some tpv =>
          cases hss : s.start with
          | none =>
            exfalso
            unfold tsInv at hinv
            rw [hss, htp] at hinv
            exact hinv
          | some st =>
            have hinv0 : List.Chain' (· < ·) s.m.Timestamps ∧
                s.m.Timestamps.head? = some 0 ∧
                s.m.Timestamps.getLast? = some (tpv - st) := by
              unfold tsInv at hinv
              rw [hss, htp] at hinv
              exact hinv
            have hchain0 : List.Chain' (· ≤ ·)
                (tpv :: t :: rest.filterMap (fun e => e.Timestamp)) := by
              rw [htp] at hchain
              simpa [List.filterMap_cons, hts] using hchain
            have htpt : tpv ≤ t := (List.chain'_cons.1 hchain0).1
            have hchain1 :
                List.Chain' (· ≤ ·)
                  ((some t).toList ++ rest.filterMap (fun e => e.Timestamp)) := by
              simpa using (List.chain'_cons.1 hchain0).2
            by_cases hd : s.m.Timestamps.getLast? = some (t - st)
            · rw [stepTs_dup hts hss hd] at f1
              have hinv1 : tsInv s1 (some t) := by
                unfold tsInv
                rw [f1.2, f1.1, hss]
                exact ⟨hinv0.1, hinv0.2.1, hd⟩
              exact ih s1 (some t) s' hinv1 hchain1 h
            · simp only [stepTs_app hts hss hd] at f1
              have hne : s.m.Timestamps ≠ [] := by
                intro hcon
                rw [hcon] at hinv0
                cases hinv0.2.2
              have hlt : tpv - st < t - st := by
                rcases Int.lt_or_le (tpv - st) (t - st) with hx | hx
                · exact hx
                · exfalso
                  have : tpv - st = t - st := by omega
                  rw [this] at hinv0
                  exact hd hinv0.2.2
              have hinv1 : tsInv s1 (some t) := by
                unfold tsInv
                rw [f1.2, f1.1, hss]
                refine ⟨?_, ?_, List.getLast?_concat _⟩
                · refine List.Chain'.append hinv0.1 (by simp) ?_
                  intro x hx y hy
                  rw [hinv0.2.2] at hx
                  rw [List.head?_cons] at hy
                  cases hx
                  cases hy
                  exact hlt
                · rw [List.head?_append, hinv0.2.1]
                  rfl
              exact ih s1 (some t) s' hinv1 hchain1 h

/-- C2 (amended): for every accepted input file whose timestamped records
appear in non-decreasing parsed-time order, the elapsed-offset sequence of
the resulting measurements is strictly increasing, and when it is nonempty
its first element is zero. -/
theorem C2_offsets_strictly_increasing {entries : List logEntry}
    {meas : plotMeasurements}
    (hsorted : List.Chain' (· ≤ ·) (entries.filterMap (fun e => e.Timestamp)))
    (hok : processFile entries = .ok meas) :
    List.Chain' (· < ·) meas.Timestamps ∧
    (meas.Timestamps ≠ [] → meas.Timestamps.head? = some 0) := by
  rcases processFile_ok hok with ⟨s, hs, _, rfl⟩
  rcases procEntries_tsInv entries initState none s rfl (by simpa using hsorted) hs
    with ⟨tp, hinv⟩
  have hmain : List.Chain' (· < ·) s.m.Timestamps ∧
      (s.m.Timestamps ≠ [] → s.m.Timestamps.head? = some 0) := by
    unfold tsInv at hinv
    cases hss : s.start with
    | none =>
      cases tp with
      | none =>
        rw [hss] at hinv
        exact ⟨by rw [hinv]; exact List.chain'_nil, fun hne => absurd hinv hne⟩
      | some t =>
        rw [hss] at hinv
        exact hinv.elim
    | some st =>
      cases tp with
      | none =>
        rw [hss] at hinv
        exact hinv.elim
      | some t =>
        rw [hss] at hinv
        exact ⟨hinv.1, fun _ => hinv.2.1⟩
  constructor
  · exact (hmain.1).take _
  · intro hne
    have hred : (reconcile s.m).Timestamps = s.m.Timestamps.take (reconLength s.m) :=
      rfl
    rw [hred] at hne ⊢
    cases hts : s.m.Timestamps with
    | nil => rw [hts] at hne; simp at hne
    | cons a l =>
      cases hLn : reconLength s.m with
      | zero => rw [hLn] at hne; simp at hne
      | succ n =>
        rw [List.take_succ_cons, List.head?_cons]
        have hh := hmain.2 (by rw [hts]; exact List.cons_ne_nil a l)
        rw [hts, List.head?_cons] at hh
        exact hh

/-- Witness for the amended C2 at a concrete sorted file with a duplicate
offset. -/
theorem C2_offsets_strictly_increasing_witness :
    List.Chain' (· < ·) measC2good.Timestamps ∧
    (measC2good.Timestamps ≠ [] → measC2good.Timestamps.head? = some 0) :=
  @C2_offsets_strictly_increasing c2good measC2good
    (by
      show List.Chain' (· ≤ ·) ([0, 5, 5, 9] : List Int)
      norm_num [List.chain'_cons, List.chain'_singleton])
    (by rfl)

/-- Counterexample to C2 as stated: `c2bad` is accepted by `processFile`
(its records decode fine and its marker is unique), yet because its
timestamps are out of order the offset sequence is `[0, 2, 1]`, which is
not strictly increasing. -/
theorem C2_counterexample :
    processFile c2bad = .ok measC2bad ∧
    ¬ List.Chain' (· < ·) measC2bad.Timestamps :=
  ⟨by rfl, by
    intro hchain
    rw [show measC2bad.Timestamps = [0, 2, 1] from rfl] at hchain
    have h2 := (List.chain'_cons.1 ((List.chain'_cons.1 hchain).2)).1
    norm_num at h2⟩

theorem getLastD_cons : ∀ (l : List α) (a d : α),
    (a :: l).getLast?.getD d = l.getLast?.getD a := by
  intro l
  induction l with
  | nil => intro a d; rfl
  | cons b l' ih =>
    intro a d
    rw [List.getLast?_cons_cons]
    cases h : (b :: l').getLast? with
    | none => rw [List.getLast?_eq_none_iff] at h; cases h
    | some x => rfl

theorem getLastD_map_cons (f : α → β) : ∀ (l : List α) (a : α) (d : β),
    ((a :: l).getLast?.map f).getD d = (l.getLast?.map f).getD (f a) := by
  intro l
  induction l with
  | nil => intro a d; rfl
  | cons b l' ih =>
    intro a d
    rw [List.getLast?_cons_cons]
    cases h : (b :: l').getLast? with
    | none => rw [List.getLast?_eq_none_iff] at h; cases h
    | some x => rfl

theorem any_dropLast_cons_empty (ms : List String) :
    (("" :: ms).dropLast.any (fun x => x ≠ "")) =
      ms.dropLast.any (fun x => x ≠ "") := by
  cases ms with
  | nil => rfl
  | cons b l =>
    rw [List.dropLast_cons₂]
    simp [List.any_cons]

theorem procEntries_engine :
    ∀ (entries : List logEntry) (s : procState),
      (((s.m.Engine :: markerEngines entries).dropLast.any (fun x => x ≠ "")) = true →
        procEntries s entries = .error .duplicateMarker) ∧
      (((s.m.Engine :: markerEngines entries).dropLast.any (fun x => x ≠ "")) = false →
        ∃ s', procEntries s entries = .ok s' ∧
          s'.m.Engine = (markerEngines entries).getLast?.getD s.m.Engine ∧
          s'.m.Config = ((runningRecs entries).getLast?.map runCfg).getD s.m.Config) := by
  intro entries
  induction entries with
  | nil =>
    intro s
    constructor
    · intro h
      simp [markerEngines, runningRecs] at h
    · intro _
      exact ⟨s, rfl, by simp [markerEngines, runningRecs], by simp [runningRecs]⟩
  | cons e rest ih =>
    intro s
    by_cases hrun : e.Message = "running"
    · have hrr : runningRecs (e :: rest) = e :: runningRecs rest := by
        simp [runningRecs, List.filter_cons, hrun]
      have hme : markerEngines (e :: rest) = e.Engine :: markerEngines rest := by
        rw [markerEngines, hrr, List.map_cons, markerEngines]
      by_cases hE : s.m.Engine = ""
      · have hstepE : (stepTs s e).m.Engine = "" := by
          rw [(stepTs_fields s e).1]
          exact hE
        have hstep : procStep s e =
            .ok { stepTs s e with
                  m := { (stepTs s e).m with Engine := e.Engine, Config := runCfg e } } :=
          stepMsg_running_ok hrun hstepE
        have hpe : procEntries s (e :: rest) =
            procEntries
              { stepTs s e with
                m := { (stepTs s e).m with Engine := e.Engine, Config := runCfg e } }
              rest := by
          simp only [procEntries, hstep]
        have ihs := ih { stepTs s e with
          m := { (stepTs s e).m with Engine := e.Engine, Config := runCfg e } }
        rw [hme]
        constructor
        · intro h
          rw [hpe]
          refine ihs.1 ?_
          rw [List.dropLast_cons₂] at h
          simp only [List.any_cons] at h
          simpa [hE] using h
        · intro h
          rw [List.dropLast_cons₂] at h
          simp only [List.any_cons] at h
          rcases ihs.2 (by simpa [hE] using h) with ⟨s', hok, hEng, hCfg⟩
          refine ⟨s', by rw [hpe]; exact hok, ?_, ?_⟩
          · rw [hEng, getLastD_cons]
          · rw [hCfg, hrr, getLastD_map_cons]
      · have hstepE : ¬ (stepTs s e).m.Engine = "" := by
          rw [(stepTs_fields s e).1]
          exact hE
        have hstep : procStep s e = .error .duplicateMarker :=
          stepMsg_running_dup hrun hstepE
        have hpe : procEntries s (e :: rest) = .error .duplicateMarker := by
          simp only [procEntries, hstep]
        constructor
        · intro _
          exact hpe
        · intro h
          exfalso
          rw [hme, List.dropLast_cons₂] at h
          simp only [List.any_cons] at h
          simp [hE] at h
    · have hrr : runningRecs (e :: rest) = runningRecs rest := by
        simp [runningRecs, List.filter_cons, hrun]
      have hme : markerEngines (e :: rest) = markerEngines rest := by
        rw [markerEngines, hrr, markerEngines]
      rcases stepMsg_not_running (s := stepTs s e) hrun with
        ⟨s1, hstep, hEng1, hCfg1, -, -⟩
      have hEng1' : s1.m.Engine = s.m.Engine := by
        rw [hEng1, (stepTs_fields s e).1]
      have hCfg1' : s1.m.Config = s.m.Config := by
        rw [hCfg1, (stepTs_fields s e).2.1]
      have hpe : procEntries s (e :: rest) = procEntries s1 rest := by
        simp only [procEntries]
        have hstep' : procStep s e = .ok s1 := hstep
        simp only [hstep']
      have ihs := ih s1
      rw [hme]
      constructor
      · intro h
        rw [hpe]
        exact ihs.1 (by rw [hEng1']; exact h)
      · intro h
        rcases ihs.2 (by rw [hEng1']; exact h) with ⟨s', hok, hEng, hCfg⟩
        refine ⟨s', by rw [hpe]; exact hok, ?_, ?_⟩
        · rw [hEng, hEng1']
        · rw [hCfg, hrr, hCfg1']

theorem init_marker_cond (entries : List logEntry) :
    ((initState.m.Engine :: markerEngines entries).dropLast.any (fun x => x ≠ "")) =
      (markerEngines entries).dropLast.any (fun x => x ≠ "") := by
  show (("" :: markerEngines entries).dropLast.any (fun x => x ≠ "")) = _
  exact any_dropLast_cons_empty _

/-- C4 (amended): with "marker record" read as the code reads it — a
"running" record whose engine field is nonempty — `processFile` fails with
`DuplicateMarker` exactly when some non-final "running" record carries a
nonempty engine (a marker was already registered when another "running"
record arrived), fails with `MissingMarker` exactly when no duplicate
fires and the last "running" record (if any) carries an empty engine, and
otherwise succeeds with engine and configuration taken from the last
"running" record, which is then the unique marker record of the stream. -/
theorem C4_marker_error_taxonomy :
    ∀ entries : List logEntry,
      (processFile entries = .error .duplicateMarker ↔
        (markerEngines entries).dropLast.any (fun x => x ≠ "") = true) ∧
      (processFile entries = .error .missingMarker ↔
        ((markerEngines entries).dropLast.any (fun x => x ≠ "") = false ∧
          (markerEngines entries).getLast?.getD "" = "")) ∧
      (∀ meas, processFile entries = .ok meas →
        ∃ r, (runningRecs entries).getLast? = some r ∧ ¬ r.Engine = "" ∧
          meas.Engine = r.Engine ∧ meas.Config = runCfg r ∧
          ∀ r' ∈ runningRecs entries, ¬ r'.Engine = "" → r' = r) := by
  intro entries
  have hmain := procEntries_engine entries initState
  cases hc : (markerEngines entries).dropLast.any (fun x => x ≠ "") with
  | true =>
    have hdup : procEntries initState entries = .error .duplicateMarker :=
      hmain.1 (by rw [init_marker_cond]; exact hc)
    have hpf : processFile entries = .error .duplicateMarker := by
      unfold processFile
      simp only [hdup]
    refine ⟨⟨fun _ => rfl, fun _ => hpf⟩, ⟨?_, ?_⟩, ?_⟩
    · intro hmiss
      rw [hpf] at hmiss
      simp at hmiss
    · rintro ⟨h1, -⟩
      exact Bool.noConfusion h1
    · intro meas hok
      rw [hpf] at hok
      cases hok
  | false =>
    rcases hmain.2 (by rw [init_marker_cond]; exact hc) with ⟨s', hok, hEng, hCfg⟩
    have hEng' : s'.m.Engine = (markerEngines entries).getLast?.getD "" := hEng
    by_cases hE : s'.m.Engine = ""
    · have hpf : processFile entries = .error .missingMarker := by
        unfold processFile
        simp only [hok]
        rw [if_pos hE]
      refine ⟨⟨?_, ?_⟩, ⟨fun _ => ⟨rfl, by rw [← hEng']; exact hE⟩, fun _ => hpf⟩, ?_⟩
      · intro h
        rw [hpf] at h
        simp at h
      · intro h
        exact Bool.noConfusion h
      · intro meas hok2
        rw [hpf] at hok2
        cases hok2
    · have hpf : processFile entries = .ok (reconcile s'.m) := by
        unfold processFile
        simp only [hok]
        rw [if_neg hE]
      have hms : (markerEngines entries).getLast? =
          ((runningRecs entries).getLast?).map (fun e => e.Engine) := by
        rw [markerEngines, List.getLast?_map]
      refine ⟨⟨?_, ?_⟩, ⟨?_, ?_⟩, ?_⟩
      · intro h
        rw [hpf] at h
        cases h
      · intro h
        exact Bool.noConfusion h
      · intro h
        rw [hpf] at h
        cases h
      · rintro ⟨-, h2⟩
        rw [hEng'] at hE
        exact absurd h2 hE
      · intro meas hok2
        rw [hpf] at hok2
        cases hok2
        cases hr : (runningRecs entries).getLast? with
        | none =>
          exfalso
          rw [hms, hr] at hEng'
          exact hE hEng'
        | some r =>
          have hrE : s'.m.Engine = r.Engine := by
            rw [hEng', hms, hr]
            rfl
          have hne : runningRecs entries ≠ [] := by
            intro hcon
            rw [hcon] at hr
            cases hr
          have hgl : (runningRecs entries).getLast hne = r := by
            have hx := List.getLast?_eq_getLast (runningRecs entries) hne
            rw [hr] at hx
            injection hx with hx
            exact hx.symm
          refine ⟨r, rfl, by rw [← hrE]; exact hE, hrE, ?_, ?_⟩
          · show s'.m.Config = runCfg r
            rw [hCfg, hr]
            rfl
          · intro r' hr' hne'
            rw [← List.dropLast_append_getLast hne] at hr'
            rcases List.mem_append.1 hr' with hmem | hmem
            · exfalso
              have hmem2 : r'.Engine ∈ (markerEngines entries).dropLast := by
                rw [markerEngines, ← List.map_dropLast]
                exact List.mem_map_of_mem _ hmem
              have hall := List.any_eq_false.1 hc r'.Engine hmem2
              simp at hall
              exact hne' hall
            · rw [List.mem_singleton] at hmem
              rw [hmem, hgl]

/-- Counterexample to C4 as stated: `c4entries` contains a marker
("running") record before stream end, yet `processFile` fails with
`MissingMarker`, because the code detects a seen marker through a nonempty
engine field and this marker's engine field is empty. -/
theorem C4_counterexample :
    runningRecs c4entries = [{ Message := "running", Engine := "" }] ∧
    processFile c4entries = .error .missingMarker :=
  ⟨by rfl, by rfl⟩

/-- Witness for the amended C4: a concrete file that fails `MissingMarker`
despite a "running" record, and a concrete accepted file whose engine and
configuration come from its unique marker record. -/
theorem C4_marker_error_taxonomy_witness :
    processFile c4entries = .error .missingMarker ∧
    ∃ r, (runningRecs c1entries).getLast? = some r ∧ ¬ r.Engine = "" ∧
      measC1.Engine = r.Engine ∧ measC1.Config = runCfg r ∧
      ∀ r' ∈ runningRecs c1entries, ¬ r'.Engine = "" → r' = r :=
  ⟨(C4_marker_error_taxonomy c4entries).2.1.mpr ⟨by rfl, by rfl⟩,
    (C4_marker_error_taxonomy c1entries).2.2 measC1 (by rfl)⟩

theorem foldr_pair_flatMap (f g : plotMeasurements → chartSeries) :
    ∀ L : List plotMeasurements,
      L.foldr (fun m acc => f m :: g m :: acc) [] =
        L.flatMap (fun m => [f m, g m]) := by
  intro L
  induction L with
  | nil => rfl
  | cons m ms ih => simp [List.flatMap_cons, ih]

/-- C6 (amended): for a latency (non-rate) metric chart each
RunMeasurements contributes exactly two series: a visible line series over
its chart rows, and one auxiliary custom series over the same rows with
encode X=[0], Y=[2,3] (offset, mean, min, max columns) and the whisker
render function attached from the start — the auxiliary series is
initially rendered, and the emitted toggle is what later sets its
renderItem to null (hidden). -/
theorem C6_latency_series_structure {name : String}
    (hrate : strContains name "rate" = false) :
    ∀ (unit : Int) (config : plotConfig) (allMeasurements : List plotMeasurements),
      (renderPlot unit config name allMeasurements).series =
        allMeasurements.flatMap (fun m =>
          [⟨m.Engine, SType.line, false, none,
              makeLineData unit m.Timestamps (alistGet m.Data name)⟩,
           ⟨m.Engine, SType.custom, true, some ([0], [2, 3]),
              makeLineData unit m.Timestamps (alistGet m.Data name)⟩]) ∧
      ∀ srs ∈ (renderPlot unit config name allMeasurements).series,
        srs.stype = SType.custom → srs.hasRenderItem = true := by
  intro unit config allM
  have hproj : (renderPlot unit config name allM).series =
      allM.foldr (fun m acc =>
        ⟨m.Engine, SType.line, false, none,
            makeLineData unit m.Timestamps (alistGet m.Data name)⟩ ::
          (if strContains name "rate" then acc
           else ⟨m.Engine, SType.custom, true, some ([0], [2, 3]),
                  makeLineData unit m.Timestamps (alistGet m.Data name)⟩ :: acc)) [] :=
    rfl
  have hser : (renderPlot unit config name allM).series =
      allM.flatMap (fun m =>
        [⟨m.Engine, SType.line, false, none,
            makeLineData unit m.Timestamps (alistGet m.Data name)⟩,
         ⟨m.Engine, SType.custom, true, some ([0], [2, 3]),
            makeLineData unit m.Timestamps (alistGet m.Data name)⟩]) := by
    rw [hproj]
    simp only [hrate]
    simp only [Bool.false_eq_true, if_false]
    exact foldr_pair_flatMap _ _ allM
  refine ⟨hser, ?_⟩
  intro srs hmem hstype
  rw [hser] at hmem
  rcases List.mem_flatMap.1 hmem with ⟨m, -, hm⟩
  rcases List.mem_cons.1 hm with rfl | hm2
  · cases hstype
  · rw [List.mem_singleton] at hm2
    rw [hm2]

/-- Witness for the amended C6 at a concrete latency chart. -/
theorem C6_latency_series_structure_witness :
    (renderPlot 1 exCfg "set" [measB]).series =
      [measB].flatMap (fun m =>
        [⟨m.Engine, SType.line, false, none,
            makeLineData 1 m.Timestamps (alistGet m.Data "set")⟩,
         ⟨m.Engine, SType.custom, true, some ([0], [2, 3]),
            makeLineData 1 m.Timestamps (alistGet m.Data "set")⟩]) :=
  (C6_latency_series_structure (by decide) 1 exCfg [measB]).1

/-- Counterexample to C6 as stated: in the latency chart rendered for
`measB` the auxiliary custom series carries the whisker render function
from the start (`hasRenderItem = true`) — it is initially rendered, not
hidden; a null renderItem is what the emitted toggle treats as hidden. -/
theorem C6_counterexample :
    ((renderPlot 1 exCfg "set" [measB]).series.map
      (fun srs => (srs.stype, srs.hasRenderItem))) =
      [(SType.line, false), (SType.custom, true)] ∧
    ¬ (∀ srs ∈ (renderPlot 1 exCfg "set" [measB]).series,
        srs.stype = SType.custom → srs.hasRenderItem = false) :=
  ⟨by rfl, by decide⟩
